import Mathlib

/-!
Shallow embedding of the PDF-to-image converter (src/App.tsx, with the
earlier near-duplicate variant src/unnamed/part_000) and proofs about it.

Conventions of the embedding:
* JS strings are modelled as `String` / `List Char`; the handful of string
  primitives the code uses (trim, split, parseInt, replace, toFixed) are
  re-implemented below following their ECMAScript semantics on the inputs
  the program produces.
* JS numbers that hold page counts, byte sizes and ids are modelled as
  `ℕ` / `ℤ`; pixel dimensions and drawing coordinates (which are produced
  by float arithmetic on exactly representable values) are modelled as `ℚ`.
* React `useState` cells are collected into one record `AppState`; each
  event handler becomes a pure function from state (plus its inputs) to
  state.  Asynchronous awaits are sequential in the source (one page at a
  time), so they are modelled by ordinary sequential evaluation.
* External collaborators (pdf.js, canvas, JSZip, jsPDF, the DOM download
  anchor) are modelled at their call boundary: the opened document is a
  page count plus a per-page render outcome, an exported zip/pdf/stitch is
  the record of the calls the code makes into the collaborator.
-/

namespace PDFToJpg

/-- Whitespace recognised by the modelled JS `trim` / `parseInt`. -/
def isJsWs (c : Char) : Bool :=
  c = ' ' || c = '\t' || c = '\n' || c = '\r'

/-- JS `String.prototype.split` against a character class: splits at every
separator character, keeping empty pieces (as `"a,,b".split` does). -/
def jsSplitOnP (p : Char → Bool) : List Char → List (List Char)
  | [] => [[]]
  | c :: cs =>
    if p c then [] :: jsSplitOnP p cs
    else
      match jsSplitOnP p cs with
      | [] => [[c]]
      | g :: gs => (c :: g) :: gs

/-- JS `String.prototype.trim` (on the whitespace alphabet above). -/
def jsTrim (l : List Char) : List Char :=
  ((l.dropWhile isJsWs).reverse.dropWhile isJsWs).reverse

/-- Decimal digit value of a character, if any. -/
def decDigit? (c : Char) : Option ℕ :=
  if '0' ≤ c ∧ c ≤ '9' then some (c.toNat - 48) else none

/-- Hexadecimal digit value of a character, if any. -/
def hexDigit? (c : Char) : Option ℕ :=
  if '0' ≤ c ∧ c ≤ '9' then some (c.toNat - 48)
  else if 'a' ≤ c ∧ c ≤ 'f' then some (c.toNat - 87)
  else if 'A' ≤ c ∧ c ≤ 'F' then some (c.toNat - 55)
  else none

/-- Longest digit prefix of `l`, interpreted in the given radix; `none`
when there is no leading digit (JS `parseInt` yields `NaN` then). -/
def jsParseIntCore (digit? : Char → Option ℕ) (radix : ℕ) (l : List Char) : Option ℕ :=
  let ds := l.takeWhile (fun c => (digit? c).isSome)
  if ds.isEmpty then none
  else some (ds.foldl (fun acc c => acc * radix + (digit? c).getD 0) 0)

/-- Does the (sign-stripped) input select the hexadecimal branch of JS
`parseInt` (a leading `0x` / `0X`)? -/
def jsHexMarker : List Char → Bool
  | a :: x :: _ => a = '0' && (x = 'x' || x = 'X')
  | _ => false

/-- ECMAScript `parseInt(s)` with the default radix handling: skip leading
whitespace, optional sign, `0x` selects base 16, then the longest digit
prefix; `none` models `NaN`. -/
def jsParseInt (l : List Char) : Option ℤ :=
  match l.dropWhile isJsWs with
  | [] => none
  | c :: rest =>
    let sign : ℤ := if c = '-' then -1 else 1
    let l2 := if c = '-' || c = '+' then rest else c :: rest
    if jsHexMarker l2 then
      (jsParseIntCore hexDigit? 16 (l2.drop 2)).map (fun n => sign * (n : ℤ))
    else
      (jsParseIntCore decDigit? 10 l2).map (fun n => sign * (n : ℤ))

/-- The ids contributed by one comma-separated segment of the range input
(`parseAndApplyRange`, src/App.tsx lines 82-96): a single parsed integer,
or the inclusive interval `min..max` for a two-component `a-b` segment;
anything else contributes nothing. -/
def segmentContribution (p : List Char) : Finset ℤ :=
  match jsSplitOnP (fun c => c = '-') (jsTrim p) with
  | [one] =>
    match jsParseInt one with
    | some v => {v}
    | none => ∅
  | [a, b] =>
    match jsParseInt a, jsParseInt b with
    | some x, some y => Finset.Icc (min x y) (max x y)
    | _, _ => ∅
  | _ => ∅

/-- The union of all segment contributions (`newSelected` in the source),
before clamping. -/
def contributedSet (input : List Char) : Finset ℤ :=
  (jsSplitOnP (fun c => c = ',' || c = '，') input).foldl
    (fun acc p => acc ∪ segmentContribution p) ∅

/-- The clamped set (`validSelection` in the source): contributed ids kept
only when they lie in `[1, total]`. -/
def validSet (input : List Char) (total : ℕ) : Finset ℕ :=
  ((contributedSet input).filter (fun id => 1 ≤ id ∧ id ≤ (total : ℤ))).image Int.toNat

/-- `parseAndApplyRange` (src/App.tsx lines 75-106) as a function from the
raw input, the known page total and the current selection to the new
selection: empty (falsy) trimmed input is a no-op, and the clamped valid
set replaces the selection only when it is non-empty. -/
def parseAndApplyRange (rawInput : String) (total : ℕ) (sel : Finset ℕ) : Finset ℕ :=
  let input := jsTrim rawInput.data
  if input = [] then sel
  else
    let valid := validSet input total
    if valid.Nonempty then valid else sel

/-- Decimal digit characters. -/
def digitChars : List Char := ['0', '1', '2', '3', '4', '5', '6', '7', '8', '9']

/-- Decimal representation (most significant digit first) of a natural
number, as the characters JS string interpolation produces. -/
def natDigits (n : ℕ) : List Char :=
  if h : n < 10 then [Char.ofNat (48 + n)]
  else natDigits (n / 10) ++ [Char.ofNat (48 + n % 10)]
termination_by n
decreasing_by exact Nat.div_lt_self (by omega) (by omega)

/-- Decimal representation of an integer, as JS renders it in a template
string: a `-` sign followed by the digits of the absolute value. -/
def intRepr (a : ℤ) : List Char :=
  if a < 0 then '-' :: natDigits a.natAbs else natDigits a.natAbs

/-- One raster page (`ProcessedImage` in src/App.tsx): id, encoded data
URL, pixel dimensions of the render viewport and the derived byte size. -/
structure ProcessedImage where
  id : ℕ
  data : String
  width : ℚ
  height : ℚ
  size : ℤ
deriving DecidableEq

/-- `Math.floor((imgData.length - 22) * 0.75)` (src/App.tsx line 151);
`0.75` is exactly `3 / 4` in binary floating point, so the float product
is exact and the floor is integer floor division. -/
def jsImgSize (data : String) : ℤ :=
  Int.fdiv (3 * ((data.length : ℤ) - 22)) 4

/-- The integer `n` chosen by ECMAScript `toFixed(f)`: `n / 10^f` is the
representable decimal closest to `x`, ties resolved to the larger `n`.
The arguments fed to it by the source (`bytes / 1024`, `bytes / 1048576`)
are exact binary values, so rounding happens only here. -/
def jsToFixedNum (f : ℕ) (x : ℚ) : ℤ :=
  ⌊x * (10 : ℚ) ^ f + 1 / 2⌋

/-- Decimal rendering of `toFixed(1)` output for the non-negative values
the estimator produces. -/
def renderFixed1 (n : ℤ) : String :=
  if n < 0 then "-" ++ toString (n.natAbs / 10) ++ "." ++ toString (n.natAbs % 10)
  else toString (n.natAbs / 10) ++ "." ++ toString (n.natAbs % 10)

/-- Two-digit zero padding of the fractional part of `toFixed(2)`. -/
def pad2 (b : ℕ) : String :=
  if b < 10 then "0" ++ toString b else toString b

/-- Decimal rendering of `toFixed(2)` output for the non-negative values
the estimator produces. -/
def renderFixed2 (n : ℤ) : String :=
  if n < 0 then "-" ++ toString (n.natAbs / 100) ++ "." ++ pad2 (n.natAbs % 100)
  else toString (n.natAbs / 100) ++ "." ++ pad2 (n.natAbs % 100)

/-- Summed `size` over the selected images (src/App.tsx lines 53-54). -/
def totalBytesOf (images : List ProcessedImage) (sel : Finset ℕ) : ℤ :=
  (images.filter (fun img => decide (img.id ∈ sel))).foldl (fun acc img => acc + img.size) 0

/-- The `estimatedSize` memo (src/App.tsx lines 52-59): `"0 KB"` for a
zero total, the MB branch strictly above `1024 * 1024` bytes, otherwise
the KB branch. -/
def estimatedSize (images : List ProcessedImage) (sel : Finset ℕ) : String :=
  let totalBytes := totalBytesOf images sel
  if totalBytes = 0 then "0 KB"
  else if 1024 * 1024 < totalBytes then
    renderFixed2 (jsToFixedNum 2 ((totalBytes : ℚ) / (1024 * 1024))) ++ " MB"
  else
    renderFixed1 (jsToFixedNum 1 ((totalBytes : ℚ) / 1024)) ++ " KB"

/-- Outcome of processing one page inside the rasterization loop
(src/App.tsx lines 137-162): a successful render with its data URL and
viewport dimensions, the silent skip when `getContext` returns `null`
(the `if (context)` guard), or a thrown error (`getPage` / `render`
rejecting), tagged with whether the catch classifies it as
password-related. -/
inductive PageOutcome where
  | ok (data : String) (width height : ℚ)
  | noContext
  | err (passwordRelated : Bool) (msg : String)

/-- Outcome of `pdfjs.getDocument(...).promise`: an opened document with
its page count and per-page outcomes, a password rejection, or a decode
failure with its message. -/
inductive OpenResult where
  | success (totalPages : ℕ) (render : ℕ → PageOutcome)
  | needPassword
  | failed (msg : String)

/-- The `useState` cells of the component (src/App.tsx lines 25-50) that
participate in the modelled behaviour. -/
structure AppState where
  pdfFileName : Option String
  images : List ProcessedImage
  isProcessing : Bool
  progressCurrent : ℕ
  progressTotal : ℕ
  errorMsg : Option String
  sourcePassword : String
  outputPassword : String
  showPasswordPrompt : Bool
  isPasswordError : Bool
  isUnlocked : Bool
  renderScale : ℚ
  imgQuality : ℚ
  pageRangeInput : String
  selectedIds : Finset ℕ
  showExportSettings : Bool

/-- The initial state of the component (the `useState` defaults). -/
def initialState : AppState where
  pdfFileName := none
  images := []
  isProcessing := false
  progressCurrent := 0
  progressTotal := 0
  errorMsg := none
  sourcePassword := ""
  outputPassword := ""
  showPasswordPrompt := false
  isPasswordError := false
  isUnlocked := false
  renderScale := 3 / 2
  imgQuality := 3 / 4
  pageRangeInput := ""
  selectedIds := ∅
  showExportSettings := false

/-- Build the `imgObj` record of src/App.tsx line 153. -/
def mkImage (i : ℕ) (data : String) (w h : ℚ) : ProcessedImage :=
  ⟨i, data, w, h, jsImgSize data⟩

/-- The page loop of `processFile` (src/App.tsx lines 137-162), run with
fuel equal to the number of remaining iterations (`i = 1..totalPages`).
Returns the state after the loop, the accumulated `newImagesList`, and
`some (passwordRelated, msg)` when an exception escaped to the catch.
In the non-re-parsing mode each rendered page is appended to `images`
and its id inserted into the selection; progress is updated per page;
a `null` 2d context silently skips the page. -/
def runPages (render : ℕ → PageOutcome) (reparse : Bool) :
    ℕ → ℕ → AppState → List ProcessedImage →
      AppState × List ProcessedImage × Option (Bool × String)
  | 0, _, st, acc => (st, acc, none)
  | fuel + 1, i, st, acc =>
    match render i with
    | .ok data w h =>
      let img := mkImage i data w h
      let st1 :=
        if reparse then st
        else { st with images := st.images ++ [img], selectedIds := insert i st.selectedIds }
      let st2 := { st1 with progressCurrent := i }
      runPages render reparse fuel (i + 1) st2 (acc ++ [img])
    | .noContext => runPages render reparse fuel (i + 1) st acc
    | .err pw msg => (st, acc, some (pw, msg))

/-- The catch block of `processFile` (src/App.tsx lines 167-176),
together with the `finally` that clears `isProcessing`. -/
def catchHandler (st : AppState) (pwRelated : Bool) (msg : String) (usedPassword : String) :
    AppState :=
  let st1 :=
    if pwRelated then
      { st with showPasswordPrompt := true,
                isPasswordError := if usedPassword = "" then st.isPasswordError else true }
    else { st with errorMsg := some (if msg = "" then "檔案解析失敗" else msg) }
  { st1 with isProcessing := false }

/-- `processFile` (src/App.tsx lines 108-177) as a state transformer.
The opened-document outcome (page count and per-page render outcomes) is
supplied as `openRes`, abstracting the pdf.js collaborator at its
boundary.  In re-parsing mode the page collection is replaced wholesale
only after a fully un-thrown loop; otherwise pages are appended as they
are produced and auto-selected. -/
def processFile (st : AppState) (fileName : String) (openRes : OpenResult)
    (isReParsing : Bool) (customPassword : Option String) : AppState :=
  let usedPassword :=
    match customPassword with
    | some p => if p = "" then st.sourcePassword else p
    | none => st.sourcePassword
  let st1 := { st with isProcessing := true, errorMsg := none, pdfFileName := some fileName }
  let st2 := if isReParsing then st1 else { st1 with images := [] }
  match openRes with
  | .needPassword => catchHandler st2 true "password" usedPassword
  | .failed msg => catchHandler st2 false msg usedPassword
  | .success totalPages render =>
    let st3 := { st2 with showPasswordPrompt := false, isPasswordError := false,
                          isUnlocked := true, progressCurrent := 0,
                          progressTotal := totalPages }
    match runPages render isReParsing totalPages 1 st3 [] with
    | (st4, newList, none) =>
      let st5 :=
        if isReParsing then { st4 with images := newList, showExportSettings := false }
        else st4
      { st5 with isProcessing := false }
    | (st4, _, some (pwRel, msg)) => catchHandler st4 pwRel msg usedPassword

/-- Ascending-by-id sort of a page list, modelling the JS
`sort((a, b) => a.id - b.id)` comparator sort (stable, ascending). -/
def sortById (l : List ProcessedImage) : List ProcessedImage :=
  List.insertionSort (fun a b => a.id ≤ b.id) l

/-- The `selected` list the exporters start from: `images` filtered to
the selection, then sorted ascending by id (src/App.tsx lines 180, 233). -/
def selectedSorted (images : List ProcessedImage) (sel : Finset ℕ) : List ProcessedImage :=
  sortById (images.filter (fun img => decide (img.id ∈ sel)))

/-- One `ctx.drawImage` call of the stitch loop: page id, horizontal and
vertical offset, and the natural draw size. -/
structure Placement where
  id : ℕ
  x : ℚ
  y : ℚ
  w : ℚ
  h : ℚ
deriving DecidableEq

/-- The stitched canvas: its dimensions and the sequence of draw calls. -/
structure StitchResult where
  width : ℚ
  height : ℚ
  placements : List Placement
deriving DecidableEq

/-- `Math.max(...)` over a list (the selected widths are non-empty in
every use). -/
def jsMaxList : List ℚ → ℚ
  | [] => 0
  | x :: xs => xs.foldl max x

/-- The sequential compositing loop of `downloadLongImage` (src/App.tsx
lines 252-259): each page is drawn at `((maxWidth - width) / 2, currentY)`
and `currentY` advances by the page height. -/
def drawLoop (maxW : ℚ) : List ProcessedImage → ℚ → List Placement
  | [], _ => []
  | img :: rest, y =>
    ⟨img.id, (maxW - img.width) / 2, y, img.width, img.height⟩ :: drawLoop maxW rest (y + img.height)

/-- `downloadLongImage` (src/App.tsx lines 232-272): empty selection is a
no-op; otherwise the canvas is `max width × summed height` and the sorted
pages are composited top to bottom. -/
def downloadLongImage (images : List ProcessedImage) (sel : Finset ℕ) : Option StitchResult :=
  match selectedSorted images sel with
  | [] => none
  | first :: rest =>
    let selected := first :: rest
    let maxWidth := jsMaxList (selected.map (·.width))
    let totalHeight := selected.foldl (fun acc img => acc + img.height) 0
    some { width := maxWidth, height := totalHeight,
           placements := drawLoop maxWidth selected 0 }

/-- `img.data.split(',')[1]`: the base64 payload of a data URL. -/
def base64Part (data : String) : String :=
  String.mk (((jsSplitOnP (fun c => c = ',') data.data).drop 1).headD [])

/-- `downloadZip` (src/App.tsx lines 216-230): one zip entry per selected
page (in `images` order), named `page_<id>.jpg`, holding the base64
payload.  `none` models the early return on an empty selection. -/
def downloadZip (images : List ProcessedImage) (sel : Finset ℕ) :
    Option (List (String × String)) :=
  match images.filter (fun img => decide (img.id ∈ sel)) with
  | [] => none
  | first :: rest =>
    some ((first :: rest).map
      (fun img => ("page_" ++ toString img.id ++ ".jpg", base64Part img.data)))

/-- JS `String.prototype.replace` with a plain-string pattern: replaces
the first occurrence only. -/
def replaceFirst (pat repl : List Char) : List Char → List Char
  | [] => []
  | c :: cs =>
    if pat.isPrefixOf (c :: cs) then repl ++ (c :: cs).drop pat.length
    else c :: replaceFirst pat repl cs

/-- `` `${pdfFile.name.replace('.pdf', '')}_images` `` from
src/unnamed/part_000 line 147. -/
def part000FolderName (pdfName : String) : String :=
  String.mk (replaceFirst ".pdf".data [] pdfName.data) ++ "_images"

/-- `downloadSelectedZip` of the earlier variant (src/unnamed/part_000
lines 142-173): entries live inside a `<basename>_images/` zip folder and
are named `Page_<id>.jpg`; the result also records the suggested download
name `<basename>_images.zip`. -/
def downloadSelectedZip (images : List ProcessedImage) (sel : Finset ℕ) (pdfName : String) :
    Option (String × List (String × String)) :=
  if sel = ∅ then none
  else
    let folder := part000FolderName pdfName
    some (folder ++ ".zip",
      (images.filter (fun img => decide (img.id ∈ sel))).map
        (fun img => (folder ++ "/Page_" ++ toString img.id ++ ".jpg", base64Part img.data)))

/-- One output page of the reassembled document: jsPDF page format and
orientation flag (`'l'` iff width > height). -/
structure JsPdfPage where
  w : ℚ
  h : ℚ
  landscape : Bool
deriving DecidableEq

/-- The document built by `downloadPDF`: its encryption settings (user
password, owner password, permission list) when `setEncryption` was
called, its page formats, and the images embedded per page. -/
structure ExportedPdf where
  encryption : Option (String × String × List String)
  pages : List JsPdfPage
  addedImages : List (String × ℚ × ℚ)
deriving DecidableEq

/-- Did this page produce a render (the `.ok` outcome)? -/
def isOk : PageOutcome → Prop
  | .ok _ _ _ => True
  | _ => False

/-- Data URL of an `.ok` outcome. -/
def outData : PageOutcome → String
  | .ok d _ _ => d
  | _ => ""

/-- Viewport width of an `.ok` outcome. -/
def outW : PageOutcome → ℚ
  | .ok _ w _ => w
  | _ => 0

/-- Viewport height of an `.ok` outcome. -/
def outH : PageOutcome → ℚ
  | .ok _ _ h => h
  | _ => 0

/-- The `ProcessedImage` the loop builds for page `i` when its outcome is
`.ok`. -/
def pageImage (render : ℕ → PageOutcome) (i : ℕ) : ProcessedImage :=
  mkImage i (outData (render i)) (outW (render i)) (outH (render i))

/-- The images produced by an uninterrupted all-`.ok` run over pages
`i0, i0+1, …, i0+n-1`. -/
def renderedList (render : ℕ → PageOutcome) (i0 n : ℕ) : List ProcessedImage :=
  (List.range' i0 n).map (pageImage render)

/-- The id set `{i0, …, i0+n-1}` as a `Finset`. -/
def rangeFinset (i0 n : ℕ) : Finset ℕ :=
  (List.range' i0 n).toFinset

/-- `downloadPDF` (src/App.tsx lines 179-214): empty selection is a
no-op; the first selected page sizes the constructor page, later pages
come from `addPage`; a truthy `outputPassword` installs encryption with
itself as both user and owner password and print/copy/modify
permissions. -/
def downloadPDF (images : List ProcessedImage) (sel : Finset ℕ) (outputPassword : String) :
    Option ExportedPdf :=
  match selectedSorted images sel with
  | [] => none
  | first :: rest =>
    some
      { encryption :=
          if outputPassword = "" then none
          else some (outputPassword, outputPassword, ["print", "copy", "modify"]),
        pages := ⟨first.width, first.height, decide (first.height < first.width)⟩ ::
          rest.map (fun img => ⟨img.width, img.height, decide (img.height < img.width)⟩),
        addedImages := (first :: rest).map (fun img => (img.data, img.width, img.height)) }

/-! ### Lemmas about the modelled JS string primitives -/

theorem jsSplitOnP_of_no_sep (p : Char → Bool) (l : List Char) (h : ∀ c ∈ l, p c = false) :
    jsSplitOnP p l = [l] := by
  induction l with
  | nil => rfl
  | cons c cs ih =>
    have hc : p c = false := h c (List.mem_cons_self c cs)
    have ih' := ih (fun x hx => h x (List.mem_cons_of_mem c hx))
    simp only [jsSplitOnP, hc, Bool.false_eq_true, if_false, ih']

theorem jsSplitOnP_sep_append (p : Char → Bool) (xs ys : List Char) (c : Char)
    (hxs : ∀ a ∈ xs, p a = false) (hc : p c = true) :
    jsSplitOnP p (xs ++ c :: ys) = xs :: jsSplitOnP p ys := by
  induction xs with
  | nil => simp [jsSplitOnP, hc]
  | cons x xs ih =>
    have hx : p x = false := hxs x (List.mem_cons_self x xs)
    have ih' := ih (fun a ha => hxs a (List.mem_cons_of_mem x ha))
    simp only [List.cons_append, jsSplitOnP, hx, Bool.false_eq_true, if_false,
      List.append_eq, ih']

theorem dropWhile_no (f : Char → Bool) (l : List Char) (h : ∀ c ∈ l, f c = false) :
    l.dropWhile f = l := by
  cases l with
  | nil => rfl
  | cons c cs => simp [List.dropWhile_cons, h c (List.mem_cons_self c cs)]

theorem jsTrim_no_ws (l : List Char) (h : ∀ c ∈ l, isJsWs c = false) : jsTrim l = l := by
  unfold jsTrim
  rw [dropWhile_no _ _ h, dropWhile_no, List.reverse_reverse]
  intro c hc
  exact h c (List.mem_reverse.mp hc)

theorem char_digit_mem (d : ℕ) (hd : d < 10) : Char.ofNat (48 + d) ∈ digitChars := by
  interval_cases d <;> decide

theorem natDigits_mem (n : ℕ) : ∀ c ∈ natDigits n, c ∈ digitChars := by
  induction n using Nat.strong_induction_on with
  | _ n ih =>
    intro c hc
    rw [natDigits] at hc
    split at hc
    · next h =>
      rw [List.mem_singleton] at hc
      subst hc
      exact char_digit_mem n h
    · next h =>
      rcases List.mem_append.mp hc with h1 | h1
      · exact ih (n / 10) (Nat.div_lt_self (by omega) (by omega)) c h1
      · rw [List.mem_singleton] at h1
        subst h1
        exact char_digit_mem (n % 10) (Nat.mod_lt _ (by omega))

theorem natDigits_ne_nil (n : ℕ) : natDigits n ≠ [] := by
  rw [natDigits]
  split <;> simp

theorem digit_facts {c : Char} (h : c ∈ digitChars) :
    isJsWs c = false ∧ c ≠ '-' ∧ c ≠ '+' ∧ c ≠ ',' ∧ c ≠ '，' := by
  fin_cases h <;> decide

/-- Characters that can occur in a numeral-dash-numeral range string. -/
def rangeChar (c : Char) : Prop := c ∈ digitChars ∨ c = '-'

theorem rangeChar_no_ws {c : Char} (h : rangeChar c) : isJsWs c = false := by
  rcases h with h | rfl
  · exact (digit_facts h).1
  · decide

theorem rangeChar_no_comma {c : Char} (h : rangeChar c) :
    (decide (c = ',') || decide (c = '，')) = false := by
  rcases h with h | rfl
  · have := digit_facts h
    simp [this.2.2.2.1, this.2.2.2.2]
  · decide

theorem intRepr_chars (a : ℤ) : ∀ c ∈ intRepr a, rangeChar c := by
  intro c hc
  unfold intRepr at hc
  split at hc
  · rcases List.mem_cons.mp hc with rfl | h
    · exact Or.inr rfl
    · exact Or.inl (natDigits_mem _ c h)
  · exact Or.inl (natDigits_mem _ c hc)

theorem intRepr_ne_nil (a : ℤ) : intRepr a ≠ [] := by
  unfold intRepr
  split
  · simp
  · exact natDigits_ne_nil _

/-! ### C4: applied range is clamped to `[1, totalPages]` -/

/-- C4 (functional_correctness): for every input string and every
`totalPages`, the set an applied range produces (the clamped
`validSelection`) is a subset of `[1, totalPages]`; and the scenario
`applyRange("1-3,5", 6)` yields exactly `{1, 2, 3, 5}`. -/
theorem validSet_subset_Icc_and_scenario :
    (∀ (input : List Char) (total : ℕ), validSet input total ⊆ Finset.Icc 1 total) ∧
      parseAndApplyRange "1-3,5" 6 ∅ = ({1, 2, 3, 5} : Finset ℕ) := by
  constructor
  · intro input total x hx
    unfold validSet at hx
    rw [Finset.mem_image] at hx
    obtain ⟨v, hv, rfl⟩ := hx
    rw [Finset.mem_filter] at hv
    obtain ⟨-, h1, h2⟩ := hv
    rw [Finset.mem_Icc]
    omega
  · decide

/-! ### C6: a range with an empty valid set leaves the selection alone -/

/-- C6 (error_handling): if every contributed id of the range input falls
outside `[1, totalPages]` (in particular when nothing parses at all,
leaving the contributed set empty), `applyRange` leaves the current
selection unchanged; and the clamped valid set, when non-empty, becomes
the new selection. -/
theorem applyRange_empty_valid_noop (input : String) (total : ℕ) (sel : Finset ℕ) :
    ((∀ v ∈ contributedSet (jsTrim input.data), ¬(1 ≤ v ∧ v ≤ (total : ℤ))) →
        parseAndApplyRange input total sel = sel) ∧
      (jsTrim input.data ≠ [] → (validSet (jsTrim input.data) total).Nonempty →
        parseAndApplyRange input total sel = validSet (jsTrim input.data) total) := by
  constructor
  · intro h
    unfold parseAndApplyRange
    by_cases hin : jsTrim input.data = []
    · simp [hin]
    · have hempty : validSet (jsTrim input.data) total = ∅ := by
        unfold validSet
        rw [Finset.filter_eq_empty_iff.mpr]
        · exact Finset.image_empty _
        · intro v hv
          simpa using h v hv
      simp [hin, hempty]
  · intro hin hne
    unfold parseAndApplyRange
    simp [hin, hne]

/-- Witness for C6 at a concrete input: `"99"` against 6 pages parses to
the out-of-range singleton `{99}` and leaves the selection `{2, 3}`
untouched. -/
theorem applyRange_empty_valid_noop_witness :
    (∀ v ∈ contributedSet (jsTrim ("99" : String).data), ¬(1 ≤ v ∧ v ≤ ((6 : ℕ) : ℤ))) ∧
      parseAndApplyRange "99" 6 {2, 3} = {2, 3} := by
  refine ⟨by decide, (applyRange_empty_valid_noop "99" 6 {2, 3}).1 (by decide)⟩

/-! ### C5: a range segment is order-insensitive -/

theorem parseAndApplyRange_congr (x y : String) (total : ℕ) (sel : Finset ℕ)
    (hx : jsTrim x.data ≠ []) (hy : jsTrim y.data ≠ [])
    (hv : validSet (jsTrim x.data) total = validSet (jsTrim y.data) total) :
    parseAndApplyRange x total sel = parseAndApplyRange y total sel := by
  unfold parseAndApplyRange
  simp only [hx, hy, if_false, hv]

theorem contributedSet_single (S : List Char)
    (hnc : ∀ c ∈ S, (decide (c = ',') || decide (c = '，')) = false) :
    contributedSet S = segmentContribution S := by
  unfold contributedSet
  rw [jsSplitOnP_of_no_sep _ _ hnc]
  simp

theorem segmentContribution_pair (sa sb : List Char)
    (ha : ∀ c ∈ sa, c ∈ digitChars) (hb : ∀ c ∈ sb, c ∈ digitChars) :
    segmentContribution (sa ++ '-' :: sb) = segmentContribution (sb ++ '-' :: sa) := by
  have hpa : ∀ a ∈ sa, decide (a = '-') = false := by
    intro a haa
    simp [(digit_facts (ha a haa)).2.1]
  have hpb : ∀ a ∈ sb, decide (a = '-') = false := by
    intro a haa
    simp [(digit_facts (hb a haa)).2.1]
  have hwa : ∀ c ∈ sa ++ '-' :: sb, isJsWs c = false := by
    intro c hc
    rcases List.mem_append.mp hc with h | h
    · exact (digit_facts (ha c h)).1
    · rcases List.mem_cons.mp h with rfl | h
      · decide
      · exact (digit_facts (hb c h)).1
  have hwb : ∀ c ∈ sb ++ '-' :: sa, isJsWs c = false := by
    intro c hc
    rcases List.mem_append.mp hc with h | h
    · exact (digit_facts (hb c h)).1
    · rcases List.mem_cons.mp h with rfl | h
      · decide
      · exact (digit_facts (ha c h)).1
  unfold segmentContribution
  rw [jsTrim_no_ws _ hwa, jsTrim_no_ws _ hwb,
    jsSplitOnP_sep_append _ sa sb '-' hpa (by simp),
    jsSplitOnP_of_no_sep _ sb hpb,
    jsSplitOnP_sep_append _ sb sa '-' hpb (by simp),
    jsSplitOnP_of_no_sep _ sa hpa]
  rcases h1 : jsParseInt sa with _ | va <;> rcases h2 : jsParseInt sb with _ | vb <;>
    simp [h1, h2, min_comm, max_comm]

theorem segmentContribution_three_or_more {s : List Char} {a b c : List Char}
    {rest : List (List Char)} (hs : jsTrim s = s)
    (hsplit : jsSplitOnP (fun ch => decide (ch = '-')) s = a :: b :: c :: rest) :
    segmentContribution s = ∅ := by
  unfold segmentContribution
  rw [hs, hsplit]

/-- C5 (algebraic_relational): for every pair of integers written as the
range text `a-b`, applying it produces the same selection as `b-a` (for
non-negative pairs the segment contributes the symmetric interval
`min..max`; if either side is negative the extra dash makes the segment
unparseable in both orders, so both are the same no-op); and the scenario
`applyRange("5-3", 6)` yields `{3, 4, 5}`, the same as `"3-5"`. -/
theorem applyRange_order_symmetric :
    (∀ (a b : ℤ) (total : ℕ) (sel : Finset ℕ),
        parseAndApplyRange (String.mk (intRepr a ++ '-' :: intRepr b)) total sel =
          parseAndApplyRange (String.mk (intRepr b ++ '-' :: intRepr a)) total sel) ∧
      parseAndApplyRange "5-3" 6 ∅ = ({3, 4, 5} : Finset ℕ) ∧
      parseAndApplyRange "5-3" 6 ∅ = parseAndApplyRange "3-5" 6 ∅ := by
  refine ⟨?_, by decide, by decide⟩
  intro a b total sel
  have hchars : ∀ (x y : ℤ), ∀ c ∈ intRepr x ++ '-' :: intRepr y, rangeChar c := by
    intro x y c hc
    rcases List.mem_append.mp hc with h | h
    · exact intRepr_chars x c h
    · rcases List.mem_cons.mp h with rfl | h
      · exact Or.inr rfl
      · exact intRepr_chars y c h
  have hws : ∀ (x y : ℤ), ∀ c ∈ intRepr x ++ '-' :: intRepr y, isJsWs c = false :=
    fun x y c hc => rangeChar_no_ws (hchars x y c hc)
  have hcomma : ∀ (x y : ℤ), ∀ c ∈ intRepr x ++ '-' :: intRepr y,
      (decide (c = ',') || decide (c = '，')) = false :=
    fun x y c hc => rangeChar_no_comma (hchars x y c hc)
  have hne : ∀ (x y : ℤ), intRepr x ++ '-' :: intRepr y ≠ [] := by
    intro x y h
    rcases List.append_eq_nil.mp h with ⟨-, h2⟩
    exact List.cons_ne_nil _ _ h2
  have htrim : ∀ (x y : ℤ), jsTrim (intRepr x ++ '-' :: intRepr y) =
      intRepr x ++ '-' :: intRepr y :=
    fun x y => jsTrim_no_ws _ (hws x y)
  apply parseAndApplyRange_congr
  · rw [show (String.mk (intRepr a ++ '-' :: intRepr b)).data =
      intRepr a ++ '-' :: intRepr b from rfl, htrim a b]
    exact hne a b
  · rw [show (String.mk (intRepr b ++ '-' :: intRepr a)).data =
      intRepr b ++ '-' :: intRepr a from rfl, htrim b a]
    exact hne b a
  · rw [show (String.mk (intRepr a ++ '-' :: intRepr b)).data =
      intRepr a ++ '-' :: intRepr b from rfl,
      show (String.mk (intRepr b ++ '-' :: intRepr a)).data =
      intRepr b ++ '-' :: intRepr a from rfl, htrim a b, htrim b a]
    unfold validSet
    rw [contributedSet_single _ (hcomma a b), contributedSet_single _ (hcomma b a)]
    suffices hseg : segmentContribution (intRepr a ++ '-' :: intRepr b) =
        segmentContribution (intRepr b ++ '-' :: intRepr a) by rw [hseg]
    have hdigA : ∀ c ∈ natDigits a.natAbs, c ∈ digitChars := natDigits_mem _
    have hdigB : ∀ c ∈ natDigits b.natAbs, c ∈ digitChars := natDigits_mem _
    have hpA : ∀ c ∈ natDigits a.natAbs, decide (c = '-') = false := by
      intro c hc
      simp [(digit_facts (hdigA c hc)).2.1]
    have hpB : ∀ c ∈ natDigits b.natAbs, decide (c = '-') = false := by
      intro c hc
      simp [(digit_facts (hdigB c hc)).2.1]
    have hsL := htrim a b
    have hsR := htrim b a
    have hdash : decide (('-' : Char) = '-') = true := by simp
    rcases lt_or_ge a 0 with hA | hA <;> rcases lt_or_ge b 0 with hB | hB
    · -- both negative: four dash-separated components on both sides
      have eA : intRepr a = '-' :: natDigits a.natAbs := by
        unfold intRepr
        rw [if_pos hA]
      have eB : intRepr b = '-' :: natDigits b.natAbs := by
        unfold intRepr
        rw [if_pos hB]
      rw [eA, eB] at hsL hsR ⊢
      have hsplitL : jsSplitOnP (fun ch => decide (ch = '-'))
          (('-' :: natDigits a.natAbs) ++ '-' :: '-' :: natDigits b.natAbs) =
          [] :: natDigits a.natAbs :: [] :: [natDigits b.natAbs] := by
        rw [List.cons_append]
        have h0 : ∀ (t : List Char), jsSplitOnP (fun ch => decide (ch = '-')) ('-' :: t) =
            [] :: jsSplitOnP (fun ch => decide (ch = '-')) t := by
          intro t
          simp [jsSplitOnP]
        rw [h0, jsSplitOnP_sep_append _ _ _ '-' hpA hdash, h0,
          jsSplitOnP_of_no_sep _ _ hpB]
      have hsplitR : jsSplitOnP (fun ch => decide (ch = '-'))
          (('-' :: natDigits b.natAbs) ++ '-' :: '-' :: natDigits a.natAbs) =
          [] :: natDigits b.natAbs :: [] :: [natDigits a.natAbs] := by
        rw [List.cons_append]
        have h0 : ∀ (t : List Char), jsSplitOnP (fun ch => decide (ch = '-')) ('-' :: t) =
            [] :: jsSplitOnP (fun ch => decide (ch = '-')) t := by
          intro t
          simp [jsSplitOnP]
        rw [h0, jsSplitOnP_sep_append _ _ _ '-' hpB hdash, h0,
          jsSplitOnP_of_no_sep _ _ hpA]
      rw [segmentContribution_three_or_more hsL hsplitL,
        segmentContribution_three_or_more hsR hsplitR]
    · -- a negative, b non-negative: three components on both sides
      have eA : intRepr a = '-' :: natDigits a.natAbs := by
        unfold intRepr
        rw [if_pos hA]
      have eB : intRepr b = natDigits b.natAbs := by
        unfold intRepr
        rw [if_neg (not_lt.mpr hB)]
      rw [eA, eB] at hsL hsR ⊢
      have hsplitL : jsSplitOnP (fun ch => decide (ch = '-'))
          (('-' :: natDigits a.natAbs) ++ '-' :: natDigits b.natAbs) =
          [] :: natDigits a.natAbs :: [natDigits b.natAbs] := by
        rw [List.cons_append]
        have h0 : ∀ (t : List Char), jsSplitOnP (fun ch => decide (ch = '-')) ('-' :: t) =
            [] :: jsSplitOnP (fun ch => decide (ch = '-')) t := by
          intro t
          simp [jsSplitOnP]
        rw [h0, jsSplitOnP_sep_append _ _ _ '-' hpA hdash,
          jsSplitOnP_of_no_sep _ _ hpB]
      have hsplitR : jsSplitOnP (fun ch => decide (ch = '-'))
          (natDigits b.natAbs ++ '-' :: '-' :: natDigits a.natAbs) =
          natDigits b.natAbs :: [] :: [natDigits a.natAbs] := by
        have h0 : ∀ (t : List Char), jsSplitOnP (fun ch => decide (ch = '-')) ('-' :: t) =
            [] :: jsSplitOnP (fun ch => decide (ch = '-')) t := by
          intro t
          simp [jsSplitOnP]
        rw [jsSplitOnP_sep_append _ _ _ '-' hpB hdash, h0,
          jsSplitOnP_of_no_sep _ _ hpA]
      rw [segmentContribution_three_or_more hsL hsplitL,
        segmentContribution_three_or_more hsR hsplitR]
    · -- a non-negative, b negative: mirror of the previous case
      have eA : intRepr a = natDigits a.natAbs := by
        unfold intRepr
        rw [if_neg (not_lt.mpr hA)]
      have eB : intRepr b = '-' :: natDigits b.natAbs := by
        unfold intRepr
        rw [if_pos hB]
      rw [eA, eB] at hsL hsR ⊢
      have hsplitL : jsSplitOnP (fun ch => decide (ch = '-'))
          (natDigits a.natAbs ++ '-' :: '-' :: natDigits b.natAbs) =
          natDigits a.natAbs :: [] :: [natDigits b.natAbs] := by
        have h0 : ∀ (t : List Char), jsSplitOnP (fun ch => decide (ch = '-')) ('-' :: t) =
            [] :: jsSplitOnP (fun ch => decide (ch = '-')) t := by
          intro t
          simp [jsSplitOnP]
        rw [jsSplitOnP_sep_append _ _ _ '-' hpA hdash, h0,
          jsSplitOnP_of_no_sep _ _ hpB]
      have hsplitR : jsSplitOnP (fun ch => decide (ch = '-'))
          (('-' :: natDigits b.natAbs) ++ '-' :: natDigits a.natAbs) =
          [] :: natDigits b.natAbs :: [natDigits a.natAbs] := by
        rw [List.cons_append]
        have h0 : ∀ (t : List Char), jsSplitOnP (fun ch => decide (ch = '-')) ('-' :: t) =
            [] :: jsSplitOnP (fun ch => decide (ch = '-')) t := by
          intro t
          simp [jsSplitOnP]
        rw [h0, jsSplitOnP_sep_append _ _ _ '-' hpB hdash,
          jsSplitOnP_of_no_sep _ _ hpA]
      rw [segmentContribution_three_or_more hsL hsplitL,
        segmentContribution_three_or_more hsR hsplitR]
    · -- both non-negative: the interval is symmetric in its endpoints
      have eA : intRepr a = natDigits a.natAbs := by
        unfold intRepr
        rw [if_neg (not_lt.mpr hA)]
      have eB : intRepr b = natDigits b.natAbs := by
        unfold intRepr
        rw [if_neg (not_lt.mpr hB)]
      rw [eA, eB]
      exact segmentContribution_pair _ _ hdigA hdigB

/-! ### C2: the size estimator's branches and the 1 MiB boundary -/

theorem kbFormat (T : ℤ) (hpos : 0 < T) :
    ∃ a b : ℕ, b < 10 ∧
      renderFixed1 (jsToFixedNum 1 ((T : ℚ) / 1024)) = toString a ++ "." ++ toString b ∧
      |1024 * ((10 * a + b : ℕ) : ℤ) - 10 * T| ≤ 512 := by
  set n := jsToFixedNum 1 ((T : ℚ) / 1024) with hn
  have hTQ : (0 : ℚ) < (T : ℚ) := by exact_mod_cast hpos
  have hpow : ((10 : ℚ) ^ (1 : ℕ)) = 10 := by norm_num
  have h1 : (n : ℚ) ≤ (T : ℚ) / 1024 * 10 + 1 / 2 := by
    have h := Int.floor_le ((T : ℚ) / 1024 * 10 ^ (1 : ℕ) + 1 / 2)
    rw [hpow] at h
    rw [hn]
    unfold jsToFixedNum
    rw [hpow]
    exact h
  have h2 : (T : ℚ) / 1024 * 10 + 1 / 2 < (n : ℚ) + 1 := by
    have h := Int.lt_floor_add_one ((T : ℚ) / 1024 * 10 ^ (1 : ℕ) + 1 / 2)
    rw [hpow] at h
    rw [hn]
    unfold jsToFixedNum
    rw [hpow]
    exact h
  have hn0 : 0 ≤ n := by
    rw [hn]
    unfold jsToFixedNum
    apply Int.floor_nonneg.mpr
    positivity
  refine ⟨n.natAbs / 10, n.natAbs % 10, Nat.mod_lt _ (by norm_num), ?_, ?_⟩
  · unfold renderFixed1
    rw [if_neg (not_lt.mpr hn0)]
  · have hsum : 10 * (n.natAbs / 10) + n.natAbs % 10 = n.natAbs := by omega
    have hcast : ((10 * (n.natAbs / 10) + n.natAbs % 10 : ℕ) : ℤ) = n := by
      rw [hsum]
      exact Int.natAbs_of_nonneg hn0
    rw [hcast, abs_le]
    constructor
    · have : -(512 : ℚ) ≤ 1024 * (n : ℚ) - 10 * (T : ℚ) := by linarith
      exact_mod_cast this
    · have : 1024 * (n : ℚ) - 10 * (T : ℚ) ≤ 512 := by linarith
      exact_mod_cast this

theorem mbFormat (T : ℤ) (hpos : 0 < T) :
    ∃ a b : ℕ, b < 100 ∧
      renderFixed2 (jsToFixedNum 2 ((T : ℚ) / (1024 * 1024))) = toString a ++ "." ++ pad2 b ∧
      |1048576 * ((100 * a + b : ℕ) : ℤ) - 100 * T| ≤ 524288 := by
  set n := jsToFixedNum 2 ((T : ℚ) / (1024 * 1024)) with hn
  have hTQ : (0 : ℚ) < (T : ℚ) := by exact_mod_cast hpos
  have hpow : ((10 : ℚ) ^ (2 : ℕ)) = 100 := by norm_num
  have h1 : (n : ℚ) ≤ (T : ℚ) / (1024 * 1024) * 100 + 1 / 2 := by
    have h := Int.floor_le ((T : ℚ) / (1024 * 1024) * 10 ^ (2 : ℕ) + 1 / 2)
    rw [hpow] at h
    rw [hn]
    unfold jsToFixedNum
    rw [hpow]
    exact h
  have h2 : (T : ℚ) / (1024 * 1024) * 100 + 1 / 2 < (n : ℚ) + 1 := by
    have h := Int.lt_floor_add_one ((T : ℚ) / (1024 * 1024) * 10 ^ (2 : ℕ) + 1 / 2)
    rw [hpow] at h
    rw [hn]
    unfold jsToFixedNum
    rw [hpow]
    exact h
  have hn0 : 0 ≤ n := by
    rw [hn]
    unfold jsToFixedNum
    apply Int.floor_nonneg.mpr
    positivity
  refine ⟨n.natAbs / 100, n.natAbs % 100, Nat.mod_lt _ (by norm_num), ?_, ?_⟩
  · unfold renderFixed2
    rw [if_neg (not_lt.mpr hn0)]
  · have hsum : 100 * (n.natAbs / 100) + n.natAbs % 100 = n.natAbs := by omega
    have hcast : ((100 * (n.natAbs / 100) + n.natAbs % 100 : ℕ) : ℤ) = n := by
      rw [hsum]
      exact Int.natAbs_of_nonneg hn0
    rw [hcast, abs_le]
    constructor
    · have : -(524288 : ℚ) ≤ 1048576 * (n : ℚ) - 100 * (T : ℚ) := by linarith
      exact_mod_cast this
    · have : 1048576 * (n : ℚ) - 100 * (T : ℚ) ≤ 524288 := by linarith
      exact_mod_cast this

/-- C2 amended (functional_correctness): the estimator returns `"0 KB"`
for a zero selected total; for a non-zero total up to and **including**
1,048,576 bytes it returns the KB branch — one decimal digit, accurate to
half of 0.1 KB; and only strictly above 1,048,576 bytes does it use the
MB branch — two decimal digits, accurate to half of 0.01 MB.  (The claim
as frozen puts exactly 1,048,576 bytes in the MB branch; the code's
comparison `totalBytes > 1024 * 1024` is strict, see the
counterexample.) -/
theorem estimatedSize_branches (images : List ProcessedImage) (sel : Finset ℕ) :
    (totalBytesOf images sel = 0 → estimatedSize images sel = "0 KB") ∧
      (0 < totalBytesOf images sel → totalBytesOf images sel ≤ 1024 * 1024 →
        ∃ a b : ℕ, b < 10 ∧
          estimatedSize images sel = toString a ++ "." ++ toString b ++ " KB" ∧
          |1024 * ((10 * a + b : ℕ) : ℤ) - 10 * totalBytesOf images sel| ≤ 512) ∧
      (1024 * 1024 < totalBytesOf images sel →
        ∃ a b : ℕ, b < 100 ∧
          estimatedSize images sel = toString a ++ "." ++ pad2 b ++ " MB" ∧
          |1048576 * ((100 * a + b : ℕ) : ℤ) - 100 * totalBytesOf images sel| ≤ 524288) := by
  refine ⟨?_, ?_, ?_⟩
  · intro h0
    unfold estimatedSize
    simp [h0]
  · intro hpos hle
    have h0 : ¬ totalBytesOf images sel = 0 := by omega
    have hgt : ¬ 1024 * 1024 < totalBytesOf images sel := by omega
    obtain ⟨a, b, hb, hstr, herr⟩ := kbFormat (totalBytesOf images sel) hpos
    refine ⟨a, b, hb, ?_, herr⟩
    unfold estimatedSize
    rw [if_neg h0, if_neg hgt, hstr]
  · intro hgt
    have h0 : ¬ totalBytesOf images sel = 0 := by omega
    obtain ⟨a, b, hb, hstr, herr⟩ := mbFormat (totalBytesOf images sel) (by omega)
    refine ⟨a, b, hb, ?_, herr⟩
    unfold estimatedSize
    rw [if_neg h0, if_pos hgt, hstr]

/-- Witness for C2's amended theorem at concrete inputs: a 512-byte
selection formats through the KB branch and the empty selection yields
`"0 KB"`. -/
theorem estimatedSize_branches_witness :
    (totalBytesOf [] ∅ = 0 ∧ estimatedSize [] ∅ = "0 KB") ∧
      ((0 : ℤ) < totalBytesOf [⟨1, "d", 1, 1, 512⟩] {1} ∧
        ∃ a b : ℕ, b < 10 ∧
          estimatedSize [⟨1, "d", 1, 1, 512⟩] {1} = toString a ++ "." ++ toString b ++ " KB" ∧
          |1024 * ((10 * a + b : ℕ) : ℤ) - 10 * totalBytesOf [⟨1, "d", 1, 1, 512⟩] {1}| ≤ 512) := by
  refine ⟨⟨by decide, (estimatedSize_branches [] ∅).1 (by decide)⟩,
    ⟨by decide, (estimatedSize_branches [⟨1, "d", 1, 1, 512⟩] {1}).2.1 (by decide) (by decide)⟩⟩

/-- Counterexample to C2 as frozen: a selection totalling exactly
1,048,576 bytes is formatted by the KB branch as `"1024.0 KB"`, not by
the MB branch (which would yield `"1.00 MB"`). -/
theorem estimatedSize_mib_boundary_counterexample :
    estimatedSize [⟨1, "d", 1, 1, 1048576⟩] {1} = "1024.0 KB" ∧
      ("1024.0 KB" : String) ≠ "1.00 MB" := by
  have hT : totalBytesOf [⟨1, "d", 1, 1, 1048576⟩] {1} = 1048576 := by decide
  have hfix : jsToFixedNum 1 (((1048576 : ℤ) : ℚ) / 1024) = 10240 := by
    unfold jsToFixedNum
    rw [show (((1048576 : ℤ) : ℚ) / 1024 * 10 ^ (1 : ℕ) + 1 / 2) = 20481 / 2 by norm_num]
    rw [Int.floor_eq_iff]
    norm_num
  constructor
  · unfold estimatedSize
    rw [hT, if_neg (by decide : ¬ (1048576 : ℤ) = 0),
      if_neg (by decide : ¬ (1024 * 1024 : ℤ) < 1048576), hfix]
    decide
  · decide

/-! ### Lemmas about the page-rasterization loop -/

theorem renderedList_zero (render : ℕ → PageOutcome) (i0 : ℕ) :
    renderedList render i0 0 = [] := by
  unfold renderedList
  simp

theorem renderedList_succ (render : ℕ → PageOutcome) (i0 n : ℕ) :
    renderedList render i0 (n + 1) = pageImage render i0 :: renderedList render (i0 + 1) n := by
  unfold renderedList
  rw [List.range'_succ]
  rfl

theorem renderedList_ids (render : ℕ → PageOutcome) (i0 n : ℕ) :
    (renderedList render i0 n).map (fun img => img.id) = List.range' i0 n := by
  unfold renderedList
  rw [List.map_map]
  rw [show ((fun img : ProcessedImage => img.id) ∘ pageImage render) = fun i => i from
    funext fun i => rfl]
  exact List.map_id _

theorem rangeFinset_zero (i0 : ℕ) : rangeFinset i0 0 = ∅ := by
  unfold rangeFinset
  simp

theorem rangeFinset_succ (i0 n : ℕ) :
    rangeFinset i0 (n + 1) = insert i0 (rangeFinset (i0 + 1) n) := by
  unfold rangeFinset
  rw [List.range'_succ]
  simp

theorem rangeFinset_one_eq_Icc (N : ℕ) : rangeFinset 1 N = Finset.Icc 1 N := by
  unfold rangeFinset
  ext x
  rw [List.mem_toFinset, List.mem_range'_1, Finset.mem_Icc]
  omega

theorem runPages_reparse_all_ok (render : ℕ → PageOutcome) (fuel : ℕ) :
    ∀ (i0 : ℕ) (st : AppState) (acc : List ProcessedImage),
      (∀ i, i0 ≤ i → i < i0 + fuel → isOk (render i)) →
      st.progressCurrent = i0 - 1 → 1 ≤ i0 →
      runPages render true fuel i0 st acc =
        ({ st with progressCurrent := i0 + fuel - 1 },
          acc ++ renderedList render i0 fuel, none) := by
  induction fuel with
  | zero =>
    intro i0 st acc hok hpc hi0
    rw [renderedList_zero, List.append_nil]
    rw [show i0 + 0 - 1 = i0 - 1 from by omega, ← hpc]
    rfl
  | succ fuel ih =>
    intro i0 st acc hok hpc hi0
    have hok0 := hok i0 le_rfl (by omega)
    rcases hre : render i0 with ⟨d, w, h⟩ | _ | ⟨pw, msg⟩
    · simp only [runPages, hre, eq_self_iff_true, if_true]
      rw [ih (i0 + 1) _ _ (fun i h1 h2 => hok i (by omega) (by omega)) rfl (by omega)]
      rw [renderedList_succ,
        show pageImage render i0 = mkImage i0 d w h from by
          unfold pageImage outData outW outH
          rw [hre],
        show i0 + 1 + fuel - 1 = i0 + (fuel + 1) - 1 from by omega,
        List.append_assoc, List.singleton_append]
    · rw [hre] at hok0
      exact hok0.elim
    · rw [hre] at hok0
      exact hok0.elim

theorem runPages_initial_all_ok (render : ℕ → PageOutcome) (fuel : ℕ) :
    ∀ (i0 : ℕ) (st : AppState) (acc : List ProcessedImage),
      (∀ i, i0 ≤ i → i < i0 + fuel → isOk (render i)) →
      st.progressCurrent = i0 - 1 → 1 ≤ i0 →
      runPages render false fuel i0 st acc =
        ({ st with images := st.images ++ renderedList render i0 fuel,
                   selectedIds := st.selectedIds ∪ rangeFinset i0 fuel,
                   progressCurrent := i0 + fuel - 1 },
          acc ++ renderedList render i0 fuel, none) := by
  induction fuel with
  | zero =>
    intro i0 st acc hok hpc hi0
    rw [renderedList_zero, rangeFinset_zero, List.append_nil, List.append_nil,
      Finset.union_empty, show i0 + 0 - 1 = i0 - 1 from by omega, ← hpc]
    rfl
  | succ fuel ih =>
    intro i0 st acc hok hpc hi0
    have hok0 := hok i0 le_rfl (by omega)
    rcases hre : render i0 with ⟨d, w, h⟩ | _ | ⟨pw, msg⟩
    · simp only [runPages, hre, Bool.false_eq_true, if_false]
      rw [ih (i0 + 1) _ _ (fun i h1 h2 => hok i (by omega) (by omega)) rfl (by omega)]
      rw [renderedList_succ,
        show pageImage render i0 = mkImage i0 d w h from by
          unfold pageImage outData outW outH
          rw [hre],
        rangeFinset_succ,
        show i0 + 1 + fuel - 1 = i0 + (fuel + 1) - 1 from by omega,
        List.append_assoc, List.append_assoc, List.singleton_append,
        Finset.insert_union, Finset.union_insert]
    · rw [hre] at hok0
      exact hok0.elim
    · rw [hre] at hok0
      exact hok0.elim

theorem runPages_initial_err (render : ℕ → PageOutcome) (fuel : ℕ) :
    ∀ (i0 k : ℕ) (pw : Bool) (msg : String) (st : AppState) (acc : List ProcessedImage),
      (∀ i, i0 ≤ i → i < k → isOk (render i)) →
      render k = .err pw msg →
      i0 ≤ k → k < i0 + fuel →
      st.progressCurrent = i0 - 1 → 1 ≤ i0 →
      runPages render false fuel i0 st acc =
        ({ st with images := st.images ++ renderedList render i0 (k - i0),
                   selectedIds := st.selectedIds ∪ rangeFinset i0 (k - i0),
                   progressCurrent := k - 1 },
          acc ++ renderedList render i0 (k - i0), some (pw, msg)) := by
  induction fuel with
  | zero =>
    intro i0 k pw msg st acc hok hk hik hkf hpc hi0
    omega
  | succ fuel ih =>
    intro i0 k pw msg st acc hok hk hik hkf hpc hi0
    by_cases hek : i0 = k
    · subst hek
      simp only [runPages, hk]
      rw [show i0 - i0 = 0 from by omega, renderedList_zero, rangeFinset_zero,
        List.append_nil, List.append_nil, Finset.union_empty,
        show i0 - 1 = st.progressCurrent from hpc.symm]
    · have hlt : i0 < k := by omega
      have hok0 := hok i0 le_rfl hlt
      rcases hre : render i0 with ⟨d, w, h⟩ | _ | ⟨pw2, msg2⟩
      · simp only [runPages, hre, Bool.false_eq_true, if_false]
        rw [ih (i0 + 1) k pw msg _ _ (fun i h1 h2 => hok i (by omega) h2) hk
          (by omega) (by omega) rfl (by omega)]
        rw [show k - i0 = k - (i0 + 1) + 1 from by omega, renderedList_succ,
          show pageImage render i0 = mkImage i0 d w h from by
            unfold pageImage outData outW outH
            rw [hre],
          rangeFinset_succ,
          List.append_assoc, List.append_assoc, List.singleton_append,
          Finset.insert_union, Finset.union_insert]
      · rw [hre] at hok0
        exact hok0.elim
      · rw [hre] at hok0
        exact hok0.elim

/-- The full effect of a successful re-parsing pass: the page collection
is replaced wholesale by the freshly rendered generation; the selection
is untouched. -/
theorem processFile_reparse_eq (st : AppState) (fileName : String) (N : ℕ)
    (render : ℕ → PageOutcome) (cp : Option String)
    (hok : ∀ i, 1 ≤ i → i ≤ N → isOk (render i)) :
    processFile st fileName (.success N render) true cp =
      { st with pdfFileName := some fileName, errorMsg := none,
                showPasswordPrompt := false, isPasswordError := false, isUnlocked := true,
                progressCurrent := 1 + N - 1, progressTotal := N,
                images := renderedList render 1 N,
                showExportSettings := false, isProcessing := false } := by
  unfold processFile
  simp only [eq_self_iff_true, if_true]
  rw [runPages_reparse_all_ok render N 1 _ []
    (fun i h1 h2 => hok i h1 (by omega)) rfl le_rfl]
  rfl

/-- The full effect of a fully successful initial (non-re-parsing) pass:
pages are appended one by one to the cleared collection and each id is
inserted into the selection as it is produced. -/
theorem processFile_initial_all_ok_eq (st : AppState) (fileName : String) (N : ℕ)
    (render : ℕ → PageOutcome) (cp : Option String)
    (hok : ∀ i, 1 ≤ i → i ≤ N → isOk (render i)) :
    processFile st fileName (.success N render) false cp =
      { st with pdfFileName := some fileName, errorMsg := none,
                showPasswordPrompt := false, isPasswordError := false, isUnlocked := true,
                progressCurrent := 1 + N - 1, progressTotal := N,
                images := renderedList render 1 N,
                selectedIds := st.selectedIds ∪ rangeFinset 1 N,
                isProcessing := false } := by
  unfold processFile
  simp only [Bool.false_eq_true, if_false]
  rw [runPages_initial_all_ok render N 1 _ []
    (fun i h1 h2 => hok i h1 (by omega)) rfl le_rfl]
  rfl

/-- The full effect of an initial pass whose page `k` render throws a
non-password error: the loop stops at page `k`, only pages `1..k-1`
are in the collection and selection, and the catch records the error
message. -/
theorem processFile_initial_err_eq (st : AppState) (fileName : String) (N k : ℕ)
    (render : ℕ → PageOutcome) (cp : Option String) (msg : String)
    (hok : ∀ i, 1 ≤ i → i < k → isOk (render i))
    (hk : render k = .err false msg)
    (hk1 : 1 ≤ k) (hkN : k ≤ N) (hmsg : msg ≠ "") :
    processFile st fileName (.success N render) false cp =
      { st with pdfFileName := some fileName,
                showPasswordPrompt := false, isPasswordError := false, isUnlocked := true,
                progressCurrent := k - 1, progressTotal := N,
                images := renderedList render 1 (k - 1),
                selectedIds := st.selectedIds ∪ rangeFinset 1 (k - 1),
                errorMsg := some msg, isProcessing := false } := by
  unfold processFile
  simp only [Bool.false_eq_true, if_false]
  rw [runPages_initial_err render N 1 k false msg _ []
    (fun i h1 h2 => hok i h1 h2) hk hk1 (by omega) rfl le_rfl]
  unfold catchHandler
  simp only [Bool.false_eq_true, if_false, if_neg hmsg]
  rfl

/-! ### C1: a single page's render failure and the fate of the pass -/

/-- C1 amended (error_handling): the page loop sits inside one try block
with no per-page catch, so a page `k` render error aborts the pass: the
generation holds exactly the pages rendered before `k` (ids `1..k-1`),
no page with id `≥ k` is ever emitted (in particular none of the pages
after the failing one), the catch surfaces the error as a fatal
`errorMsg`, and `progress.total` still reports the full page count. -/
theorem pageRenderError_aborts_pass (st : AppState) (fileName : String) (N k : ℕ)
    (render : ℕ → PageOutcome) (cp : Option String) (msg : String)
    (hok : ∀ i, 1 ≤ i → i < k → isOk (render i))
    (hk : render k = .err false msg)
    (hk1 : 1 ≤ k) (hkN : k ≤ N) (hmsg : msg ≠ "") :
    (processFile st fileName (.success N render) false cp).images.map (fun img => img.id) =
        List.range' 1 (k - 1) ∧
      (∀ i, k ≤ i →
        ¬ ∃ img ∈ (processFile st fileName (.success N render) false cp).images, img.id = i) ∧
      (processFile st fileName (.success N render) false cp).errorMsg = some msg ∧
      (processFile st fileName (.success N render) false cp).progressTotal = N := by
  rw [processFile_initial_err_eq st fileName N k render cp msg hok hk hk1 hkN hmsg]
  refine ⟨renderedList_ids render 1 (k - 1), ?_, rfl, rfl⟩
  rintro i hi ⟨img, hmem, hid⟩
  unfold renderedList at hmem
  rw [List.mem_map] at hmem
  obtain ⟨j, hj, rfl⟩ := hmem
  rw [List.mem_range'_1] at hj
  have hji : j = i := hid
  omega

/-- The 6-page document of the C1 scenario, whose page 4 render
rejects. -/
def c1Render : ℕ → PageOutcome := fun i =>
  if i = 4 then .err false "page 4 failed" else .ok "p" 100 100

/-- The state after running the scenario pass. -/
def c1Result : AppState :=
  processFile initialState "doc.pdf" (.success 6 c1Render) false none

/-- Counterexample to C1 as frozen: with pages 1-3 fine and page 4
failing, the pass stops at page 4 — the final generation holds ids
`{1, 2, 3}` only (pages 5 and 6 are never rendered, so the claimed
`{1, 2, 3, 5, 6}` is wrong) and a fatal `errorMsg` is raised. -/
theorem pageRenderError_counterexample :
    c1Result.images.map (fun img => img.id) = [1, 2, 3] ∧
      (¬ ∃ img ∈ c1Result.images, img.id = 5) ∧
      c1Result.errorMsg = some "page 4 failed" := by
  refine ⟨?_, ?_, ?_⟩ <;> decide

/-- Witness for C1's amended theorem on the scenario document. -/
theorem pageRenderError_aborts_pass_witness :
    c1Render 4 = .err false "page 4 failed" ∧
      c1Result.images.map (fun img => img.id) = List.range' 1 (4 - 1) ∧
      c1Result.errorMsg = some "page 4 failed" := by
  have h := pageRenderError_aborts_pass initialState "doc.pdf" 6 4 c1Render none
    "page 4 failed" (by intro i h1 h2; interval_cases i <;> trivial) rfl (by omega)
    (by omega) (by decide)
  exact ⟨rfl, h.1, h.2.2.1⟩

/-! ### C3: re-rasterizing replaces the whole generation -/

/-- C3 (invariants): a successful re-parsing pass replaces the page
collection atomically with the freshly rendered generation — the result
is a function of the new render alone, every entry's `data` is the new
render's output (so whenever the new render differs from an old entry's
bytes, no id keeps its old `encodedBytes`) — and the selection, which the
re-parsing path leaves untouched, still contains only ids present in the
new generation provided it was within `[1, totalPages]` (the invariant
every selection-writing code path maintains), the pruning being vacuous
because a full generation carries every id of `[1, totalPages]`. -/
theorem reparse_replaces_generation (st : AppState) (fileName : String) (N : ℕ)
    (render : ℕ → PageOutcome) (cp : Option String)
    (hok : ∀ i, 1 ≤ i → i ≤ N → isOk (render i))
    (hsel : st.selectedIds ⊆ Finset.Icc 1 N) :
    (processFile st fileName (.success N render) true cp).images = renderedList render 1 N ∧
      (∀ img ∈ (processFile st fileName (.success N render) true cp).images,
        img.data = outData (render img.id)) ∧
      (∀ old ∈ st.images, ∀ img ∈ (processFile st fileName (.success N render) true cp).images,
        img.id = old.id → outData (render img.id) ≠ old.data → img.data ≠ old.data) ∧
      (processFile st fileName (.success N render) true cp).selectedIds = st.selectedIds ∧
      (∀ id ∈ (processFile st fileName (.success N render) true cp).selectedIds,
        ∃ img ∈ (processFile st fileName (.success N render) true cp).images, img.id = id) := by
  rw [processFile_reparse_eq st fileName N render cp hok]
  have hdata : ∀ img ∈ renderedList render 1 N, img.data = outData (render img.id) := by
    intro img hmem
    unfold renderedList at hmem
    rw [List.mem_map] at hmem
    obtain ⟨j, hj, rfl⟩ := hmem
    rfl
  refine ⟨rfl, hdata, ?_, rfl, ?_⟩
  · intro old hold img hmem hid hne
    rw [hdata img hmem]
    exact hne
  · intro id hid
    have hmem := hsel hid
    rw [Finset.mem_Icc] at hmem
    refine ⟨pageImage render id, ?_, rfl⟩
    unfold renderedList
    rw [List.mem_map]
    exact ⟨id, by rw [List.mem_range'_1]; omega, rfl⟩

/-- A state holding an old two-page generation with both pages
selected. -/
def c3OldState : AppState :=
  { initialState with
      images := [⟨1, "old1", 1, 1, 10⟩, ⟨2, "old2", 1, 1, 10⟩],
      selectedIds := {1, 2}, progressTotal := 2, pdfFileName := some "doc.pdf" }

/-- A fresh render producing different bytes for both pages. -/
def c3Render : ℕ → PageOutcome := fun i => .ok (if i = 1 then "new1" else "new2") 2 2

/-- Witness for C3 on a concrete two-page re-parse. -/
theorem reparse_replaces_generation_witness :
    (c3OldState.selectedIds ⊆ Finset.Icc 1 2) ∧
      (processFile c3OldState "doc.pdf" (.success 2 c3Render) true none).images =
        renderedList c3Render 1 2 ∧
      (processFile c3OldState "doc.pdf" (.success 2 c3Render) true none).selectedIds =
        c3OldState.selectedIds := by
  have h := reparse_replaces_generation c3OldState "doc.pdf" 2 c3Render none
    (fun i h1 h2 => True.intro) (by decide)
  exact ⟨by decide, h.1, h.2.2.2.1⟩

/-! ### C10: the initial pass auto-selects every rendered page -/

/-- C10 (invariants): starting from an empty selection (the component's
initial state), a fully successful non-re-parsing pass over an `N`-page
source inserts every rendered id into the selection as it is emitted, so
the final selection is exactly `{1..N}` and every produced page is
selected — with no user selection action modelled anywhere in the
pass. -/
theorem initial_pass_selects_all (st : AppState) (fileName : String) (N : ℕ)
    (render : ℕ → PageOutcome) (cp : Option String)
    (hok : ∀ i, 1 ≤ i → i ≤ N → isOk (render i))
    (hsel : st.selectedIds = ∅) :
    (processFile st fileName (.success N render) false cp).selectedIds = Finset.Icc 1 N ∧
      (processFile st fileName (.success N render) false cp).images.map (fun img => img.id) =
        List.range' 1 N ∧
      (∀ img ∈ (processFile st fileName (.success N render) false cp).images,
        img.id ∈ (processFile st fileName (.success N render) false cp).selectedIds) := by
  rw [processFile_initial_all_ok_eq st fileName N render cp hok]
  have hselEq : st.selectedIds ∪ rangeFinset 1 N = Finset.Icc 1 N := by
    rw [hsel, Finset.empty_union, rangeFinset_one_eq_Icc]
  refine ⟨hselEq, renderedList_ids render 1 N, ?_⟩
  intro img hmem
  show img.id ∈ st.selectedIds ∪ rangeFinset 1 N
  rw [hselEq, Finset.mem_Icc]
  unfold renderedList at hmem
  rw [List.mem_map] at hmem
  obtain ⟨j, hj, rfl⟩ := hmem
  rw [List.mem_range'_1] at hj
  have hid : (pageImage render j).id = j := rfl
  rw [hid]
  omega

/-- A three-page all-successful render. -/
def c10Render : ℕ → PageOutcome := fun _ => .ok "p" 1 1

/-- Witness for C10: from the initial state, a successful 3-page pass
ends with selection `{1, 2, 3}`. -/
theorem initial_pass_selects_all_witness :
    initialState.selectedIds = ∅ ∧
      (processFile initialState "doc.pdf" (.success 3 c10Render) false none).selectedIds =
        Finset.Icc 1 3 := by
  exact ⟨rfl, (initial_pass_selects_all initialState "doc.pdf" 3 c10Render none
    (fun i h1 h2 => True.intro) rfl).1⟩

/-! ### C7: stitched-image layout -/

theorem foldl_add_heights (l : List ProcessedImage) (a : ℚ) :
    l.foldl (fun acc img => acc + img.height) a = a + (l.map (fun img => img.height)).sum := by
  induction l generalizing a with
  | nil => simp
  | cons x xs ih => simp [ih, add_assoc]

theorem le_foldl_max_init (xs : List ℚ) : ∀ (t : ℚ), t ≤ xs.foldl max t := by
  induction xs with
  | nil =>
    intro t
    exact le_refl t
  | cons z zs ih =>
    intro t
    rw [List.foldl_cons]
    exact le_trans (le_max_left t z) (ih (max t z))

theorem foldl_max_le (xs : List ℚ) : ∀ (x y : ℚ), y ∈ x :: xs → y ≤ xs.foldl max x := by
  induction xs with
  | nil =>
    intro x y hy
    rw [List.mem_singleton] at hy
    simp [hy]
  | cons z zs ih =>
    intro x y hy
    rw [List.foldl_cons]
    rcases List.mem_cons.mp hy with rfl | hy2
    · exact le_trans (le_max_left y z) (le_foldl_max_init zs (max y z))
    · rcases List.mem_cons.mp hy2 with rfl | hy3
      · exact le_trans (le_max_right x y) (le_foldl_max_init zs (max x y))
      · exact ih (max x z) y (List.mem_cons_of_mem _ hy3)

theorem foldl_max_mem (xs : List ℚ) : ∀ (x : ℚ), xs.foldl max x ∈ x :: xs := by
  induction xs with
  | nil =>
    intro x
    rw [List.foldl_nil]
    exact List.mem_cons_self x []
  | cons z zs ih =>
    intro x
    rw [List.foldl_cons]
    rcases List.mem_cons.mp (ih (max x z)) with h | h
    · rcases max_choice x z with hm | hm
      · rw [h, hm]
        exact List.mem_cons_self _ _
      · rw [h, hm]
        exact List.mem_cons_of_mem _ (List.mem_cons_self _ _)
    · exact List.mem_cons_of_mem _ (List.mem_cons_of_mem _ h)

/-- A placeholder page used only as the default of positional lookup in
statements about draw order. -/
def imgDummy : ProcessedImage := ⟨0, "", 0, 0, 0⟩

theorem drawLoop_eq (maxW : ℚ) (l : List ProcessedImage) :
    ∀ (y0 : ℚ), drawLoop maxW l y0 =
      (List.range l.length).map (fun idx =>
        ⟨(l.getD idx imgDummy).id, (maxW - (l.getD idx imgDummy).width) / 2,
          y0 + ((l.take idx).map (fun img => img.height)).sum,
          (l.getD idx imgDummy).width, (l.getD idx imgDummy).height⟩) := by
  induction l with
  | nil =>
    intro y0
    rfl
  | cons img rest ih =>
    intro y0
    simp only [drawLoop]
    rw [ih (y0 + img.height), List.length_cons, List.range_succ_eq_map,
      List.map_cons, List.map_map]
    congr 1
    · simp
    · apply List.map_congr_left
      intro idx hidx
      simp [Function.comp, List.take_succ_cons, add_assoc]

instance : IsTotal ProcessedImage (fun a b => a.id ≤ b.id) :=
  ⟨fun a b => Nat.le_total a.id b.id⟩

instance : IsTrans ProcessedImage (fun a b => a.id ≤ b.id) :=
  ⟨fun _ _ _ h1 h2 => Nat.le_trans h1 h2⟩

/-- C7 (functional_correctness): the stitch export first sorts the
selected pages ascending by id (the sorted list is a permutation of the
filtered selection and is `Sorted` by id); the canvas width is the
maximum width among the selected pages (an upper bound that is attained),
its height is the sum of all selected heights, and the `k`-th draw call
places the `k`-th sorted page at vertical offset equal to the summed
heights of the pages before it and horizontal offset
`(maxWidth - pageWidth) / 2`. -/
theorem stitch_layout (images : List ProcessedImage) (sel : Finset ℕ)
    (hne : selectedSorted images sel ≠ []) :
    ∃ r, downloadLongImage images sel = some r ∧
      (selectedSorted images sel).Perm
        (images.filter (fun img => decide (img.id ∈ sel))) ∧
      (selectedSorted images sel).Sorted (fun a b => a.id ≤ b.id) ∧
      (∀ p ∈ selectedSorted images sel, p.width ≤ r.width) ∧
      (∃ p ∈ selectedSorted images sel, p.width = r.width) ∧
      r.height = ((selectedSorted images sel).map (fun img => img.height)).sum ∧
      r.placements = (List.range (selectedSorted images sel).length).map (fun idx =>
        ⟨((selectedSorted images sel).getD idx imgDummy).id,
          (r.width - ((selectedSorted images sel).getD idx imgDummy).width) / 2,
          (((selectedSorted images sel).take idx).map (fun img => img.height)).sum,
          ((selectedSorted images sel).getD idx imgDummy).width,
          ((selectedSorted images sel).getD idx imgDummy).height⟩) := by
  have hperm : (selectedSorted images sel).Perm
      (images.filter (fun img => decide (img.id ∈ sel))) :=
    List.perm_insertionSort _ _
  have hsorted : (selectedSorted images sel).Sorted (fun a b => a.id ≤ b.id) :=
    List.sorted_insertionSort _ _
  unfold downloadLongImage
  cases heq : selectedSorted images sel with
  | nil => exact absurd heq hne
  | cons first rest =>
    rw [heq] at hperm hsorted
    refine ⟨_, rfl, hperm, hsorted, ?_, ?_, ?_, ?_⟩
    · intro p hp
      exact foldl_max_le (rest.map (fun img => img.width)) first.width p.width
        (by
          rw [← List.map_cons]
          exact List.mem_map_of_mem (fun img => img.width) hp)
    · have hmem := foldl_max_mem (rest.map (fun img => img.width)) first.width
      rw [← List.map_cons] at hmem
      rw [List.mem_map] at hmem
      obtain ⟨p, hp, hw⟩ := hmem
      exact ⟨p, hp, hw⟩
    · exact foldl_add_heights (first :: rest) 0 |>.trans (zero_add _)
    · rw [drawLoop_eq]
      apply List.map_congr_left
      intro idx hidx
      rw [zero_add]

/-- The stitch witness input: two pages selected in reverse id order with
different widths and heights. -/
def exStitchImages : List ProcessedImage := [⟨2, "b", 6, 5, 0⟩, ⟨1, "a", 10, 7, 0⟩]

/-- Both stitch-witness pages selected. -/
def exStitchSel : Finset ℕ := {1, 2}

/-- Witness for C7 on the two-page input. -/
theorem stitch_layout_witness :
    (selectedSorted exStitchImages exStitchSel ≠ []) ∧
      ∃ r, downloadLongImage exStitchImages exStitchSel = some r ∧
        r.height = ((selectedSorted exStitchImages exStitchSel).map
          (fun img => img.height)).sum ∧
        (∀ p ∈ selectedSorted exStitchImages exStitchSel, p.width ≤ r.width) := by
  obtain ⟨r, h1, h2, h3, h4, h5, h6, h7⟩ :=
    stitch_layout exStitchImages exStitchSel (by decide)
  exact ⟨by decide, r, h1, h6, h4⟩

/-! ### C8: archive entry names -/

/-- C8 amended (functional_correctness): both archive exports pack one
entry per selected page (in `images` order), but neither names entries
exactly `Page_<id>.jpg`: the main converter (src/App.tsx `downloadZip`)
names them `page_<id>.jpg` — lowercase `p` — while the earlier variant
(src/unnamed/part_000 `downloadSelectedZip`) uses `Page_<id>.jpg` inside
a `<basename>_images/` zip folder, so its full entry paths carry that
folder prefix. -/
theorem zip_entry_names (images : List ProcessedImage) (sel : Finset ℕ) (pdfName : String)
    (hne : images.filter (fun img => decide (img.id ∈ sel)) ≠ [])
    (hsel : sel ≠ ∅) :
    (∃ entries, downloadZip images sel = some entries ∧
      entries.map Prod.fst = (images.filter (fun img => decide (img.id ∈ sel))).map
        (fun img => "page_" ++ toString img.id ++ ".jpg")) ∧
      (∃ zipName entries, downloadSelectedZip images sel pdfName = some (zipName, entries) ∧
        entries.map Prod.fst = (images.filter (fun img => decide (img.id ∈ sel))).map
          (fun img => part000FolderName pdfName ++ "/Page_" ++ toString img.id ++ ".jpg")) := by
  constructor
  · unfold downloadZip
    cases heq : images.filter (fun img => decide (img.id ∈ sel)) with
    | nil => exact absurd heq hne
    | cons first rest =>
      refine ⟨_, rfl, ?_⟩
      rw [← heq, List.map_map]
      rfl
  · unfold downloadSelectedZip
    rw [if_neg hsel]
    refine ⟨_, _, rfl, ?_⟩
    rw [List.map_map]
    rfl

/-- Counterexample to C8 as frozen: the main converter's zip entry for
page 1 is named `page_1.jpg`, which differs from the claimed
`Page_1.jpg`. -/
theorem zip_entry_name_counterexample :
    downloadZip [⟨1, "d,QUJD", 3, 3, 5⟩] {1} = some [("page_1.jpg", "QUJD")] ∧
      ("page_1.jpg" : String) ≠ "Page_1.jpg" := by
  constructor <;> decide

/-- Witness for C8's amended theorem on a one-page selection. -/
theorem zip_entry_names_witness :
    ([⟨1, "d,QUJD", 3, 3, 5⟩] : List ProcessedImage).filter
        (fun img => decide (img.id ∈ ({1} : Finset ℕ))) ≠ [] ∧
      (∃ entries, downloadZip [⟨1, "d,QUJD", 3, 3, 5⟩] {1} = some entries ∧
        entries.map Prod.fst =
          (([⟨1, "d,QUJD", 3, 3, 5⟩] : List ProcessedImage).filter
            (fun img => decide (img.id ∈ ({1} : Finset ℕ)))).map
            (fun img => "page_" ++ toString img.id ++ ".jpg")) := by
  exact ⟨by decide,
    (zip_entry_names [⟨1, "d,QUJD", 3, 3, 5⟩] {1} "file.pdf" (by decide) (by decide)).1⟩

/-! ### C9: reassembled-document encryption -/

/-- C9 (functional_correctness): for a non-empty selection, the document
reassembly export encrypts with the output passphrase used identically as
user and owner password and grants print/copy/modify permissions; with no
passphrase (the empty, falsy string) the output carries no encryption. -/
theorem reassembled_pdf_encryption (images : List ProcessedImage) (sel : Finset ℕ)
    (pw : String) (hne : selectedSorted images sel ≠ []) :
    ∃ r, downloadPDF images sel pw = some r ∧
      (pw ≠ "" → r.encryption = some (pw, pw, ["print", "copy", "modify"])) ∧
      (pw = "" → r.encryption = none) := by
  unfold downloadPDF
  cases heq : selectedSorted images sel with
  | nil => exact absurd heq hne
  | cons first rest =>
    refine ⟨_, rfl, ?_, ?_⟩
    · intro hpw
      show (if pw = "" then none else some (pw, pw, ["print", "copy", "modify"])) = _
      rw [if_neg hpw]
    · intro hpw
      show (if pw = "" then none else some (pw, pw, ["print", "copy", "modify"])) = none
      rw [if_pos hpw]

/-- Witness for C9: a one-page export with passphrase `"x"` records
`("x", "x", print/copy/modify)` encryption, and with no passphrase
records none. -/
theorem reassembled_pdf_encryption_witness :
    (selectedSorted [⟨1, "d", 4, 3, 5⟩] {1} ≠ []) ∧
      (∃ r, downloadPDF [⟨1, "d", 4, 3, 5⟩] {1} "x" = some r ∧
        r.encryption = some ("x", "x", ["print", "copy", "modify"])) ∧
      (∃ r, downloadPDF [⟨1, "d", 4, 3, 5⟩] {1} "" = some r ∧ r.encryption = none) := by
  obtain ⟨r1, hr1, he1, -⟩ :=
    reassembled_pdf_encryption [⟨1, "d", 4, 3, 5⟩] {1} "x" (by decide)
  obtain ⟨r2, hr2, -, he2⟩ :=
    reassembled_pdf_encryption [⟨1, "d", 4, 3, 5⟩] {1} "" (by decide)
  exact ⟨by decide, ⟨r1, hr1, he1 (by decide)⟩, ⟨r2, hr2, he2 rfl⟩⟩

end PDFToJpg
